import Mathlib

/-!
Shallow embedding of the gensystem repository (gensystem/utils.py and
gensystem/mirror.py) and proofs about the behaviour its specification
describes.  Python strings are modelled by Lean `String` (one `Char` per
Python byte/character), Python dicts by association lists with
first-occurrence key order and update-in-place semantics, and Python
exceptions by an `Except PyErr` result.
-/

/-- Python exception kinds that the embedded code can raise. -/
inductive PyErr where
  | runtimeError
  | valueError
  | keyError
  | typeError
  | indexError
  | nameError
  | attributeError
  | stopIter
  | ioError (msg : String)
deriving DecidableEq, Repr

instance {ε α : Type} [DecidableEq ε] [DecidableEq α] : DecidableEq (Except ε α) :=
  fun a b =>
    match a, b with
    | .ok x, .ok y =>
      if h : x = y then isTrue (by rw [h]) else isFalse (fun hc => h (Except.ok.inj hc))
    | .error x, .error y =>
      if h : x = y then isTrue (by rw [h]) else isFalse (fun hc => h (Except.error.inj hc))
    | .ok _, .error _ => isFalse (fun hc => Except.noConfusion hc)
    | .error _, .ok _ => isFalse (fun hc => Except.noConfusion hc)

/-! ## Python string primitives (character-level, faithful to Python 2 `str`) -/

/-- Characters Python's `str.strip()` and `str.split()` treat as whitespace. -/
def isPySpace (c : Char) : Bool :=
  c == ' ' || c == '\t' || c == '\n' || c == '\r' || c == '\x0b' || c == '\x0c'

/-- `s.strip()`: remove leading and trailing whitespace. -/
def pyStrip (s : String) : String :=
  ⟨((s.data.dropWhile isPySpace).reverse.dropWhile isPySpace).reverse⟩

/-- Helper for `pySplit`: accumulate the current word (reversed) while
scanning the character list. -/
def pySplitAux : List Char → List Char → List String
  | [], acc => if acc.isEmpty then [] else [String.mk acc.reverse]
  | c :: cs, acc =>
    if isPySpace c then
      if acc.isEmpty then pySplitAux cs [] else String.mk acc.reverse :: pySplitAux cs []
    else pySplitAux cs (c :: acc)

/-- `s.split()`: split on whitespace runs, dropping empty tokens. -/
def pySplit (s : String) : List String := pySplitAux s.data []

/-- Boolean character-list prefix test. -/
def isPrefixCh : List Char → List Char → Bool
  | [], _ => true
  | _ :: _, [] => false
  | a :: as, b :: bs => a == b && isPrefixCh as bs

/-- `s.startswith(p)`. -/
def strStarts (s p : String) : Bool := isPrefixCh p.data s.data

/-- `s.endswith(p)`. -/
def strEnds (s p : String) : Bool := isPrefixCh p.data.reverse s.data.reverse

/-- `os.path.basename(p)` for POSIX paths: the part after the last slash. -/
def basename (p : String) : String :=
  ⟨(p.data.reverse.takeWhile (fun c => !(c == '/'))).reverse⟩

/-! ## Python dict as an association list -/

/-- `d[k] = v` on a Python dict: update in place if the key is present,
append otherwise. -/
def dictSet {β : Type} : List (String × β) → String → β → List (String × β)
  | [], k, v => [(k, v)]
  | (k', v') :: rest, k, v =>
    if k' = k then (k, v) :: rest else (k', v') :: dictSet rest k v

/-- `d.get(k)` / `d[k]` lookup on a Python dict. -/
def dictGet {β : Type} : List (String × β) → String → Option β
  | [], _ => none
  | (k', v) :: rest, k => if k' = k then some v else dictGet rest k

theorem dictSet_fresh {β : Type} (m : List (String × β)) (k : String) (v : β)
    (h : dictGet m k = none) : dictSet m k v = m ++ [(k, v)] := by
  induction m with
  | nil => rfl
  | cons p rest ih =>
    obtain ⟨k', v'⟩ := p
    by_cases hk : k' = k
    · simp [dictGet, hk] at h
    · simp [dictSet, hk]
      exact ih (by simpa [dictGet, hk] using h)

theorem dictGet_append_left_none {β : Type} (m l : List (String × β)) (k : String)
    (h : dictGet m k = none) : dictGet (m ++ l) k = dictGet l k := by
  induction m with
  | nil => rfl
  | cons p rest ih =>
    obtain ⟨k', v'⟩ := p
    by_cases hk : k' = k
    · simp [dictGet, hk] at h
    · simp [dictGet, hk] at h ⊢
      exact ih h

theorem mem_dictSet {β : Type} (m : List (String × β)) (k : String) (v : β)
    (p : String × β) (hp : p ∈ dictSet m k v) : p ∈ m ∨ p = (k, v) := by
  induction m with
  | nil => simpa [dictSet] using hp
  | cons q rest ih =>
    obtain ⟨k', v'⟩ := q
    by_cases hk : k' = k
    · simp [dictSet, hk] at hp
      rcases hp with h | h
      · right; simp [h]
      · left; simp [h]
    · simp [dictSet, hk] at hp
      rcases hp with h | h
      · left; simp [h]
      · rcases ih h with h' | h'
        · left; simp [h']
        · right; exact h'

theorem mem_of_dictGet {β : Type} (m : List (String × β)) (k : String) (v : β)
    (h : dictGet m k = some v) : (k, v) ∈ m := by
  induction m with
  | nil => simp [dictGet] at h
  | cons q rest ih =>
    obtain ⟨k', v'⟩ := q
    by_cases hk : k' = k
    · simp [dictGet, hk] at h
      simp [hk, h]
    · simp [dictGet, hk] at h
      exact List.mem_cons_of_mem _ (ih h)

theorem dictGet_of_mem {β : Type} (m : List (String × β)) (k : String) (v : β)
    (hnd : (m.map Prod.fst).Nodup) (hmem : (k, v) ∈ m) : dictGet m k = some v := by
  induction m with
  | nil => simp at hmem
  | cons q rest ih =>
    obtain ⟨k', v'⟩ := q
    simp only [List.map_cons, List.nodup_cons] at hnd
    rcases List.mem_cons.1 hmem with h | h
    · obtain ⟨h1, h2⟩ := Prod.mk.injEq .. ▸ h
      simp [dictGet, h1.symm, h2]
    · by_cases hk : k' = k
      · exfalso
        exact hnd.1 (hk ▸ (List.mem_map.2 ⟨(k, v), h, rfl⟩))
      · simp [dictGet, hk]
        exact ih hnd.2 h

theorem keys_dictSet_sub {β : Type} (m : List (String × β)) (k : String) (v : β)
    (x : String) (hx : x ∈ (dictSet m k v).map Prod.fst) :
    x ∈ m.map Prod.fst ∨ x = k := by
  rcases List.mem_map.1 hx with ⟨p, hp, hpx⟩
  rcases mem_dictSet m k v p hp with h | h
  · left; exact List.mem_map.2 ⟨p, h, hpx⟩
  · right; rw [← hpx, h]

theorem keys_dictSet_nodup {β : Type} (m : List (String × β)) (k : String) (v : β)
    (hnd : (m.map Prod.fst).Nodup) : ((dictSet m k v).map Prod.fst).Nodup := by
  induction m with
  | nil => simp [dictSet]
  | cons q rest ih =>
    obtain ⟨k', v'⟩ := q
    simp only [List.map_cons, List.nodup_cons] at hnd
    by_cases hk : k' = k
    · subst hk
      simpa [dictSet] using hnd
    · simp only [dictSet, hk, if_false, List.map_cons, List.nodup_cons]
      refine ⟨fun hmem => ?_, ih hnd.2⟩
      rcases keys_dictSet_sub rest k v k' hmem with h | h
      · exact hnd.1 h
      · exact hk h

theorem vals_dictSet_sub {β : Type} (m : List (String × β)) (k : String) (v : β)
    (w : β) (hw : w ∈ (dictSet m k v).map Prod.snd) :
    w ∈ m.map Prod.snd ∨ w = v := by
  rcases List.mem_map.1 hw with ⟨p, hp, hpw⟩
  rcases mem_dictSet m k v p hp with h | h
  · left; exact List.mem_map.2 ⟨p, h, hpw⟩
  · right; rw [← hpw, h]

/-! ## Lexicographic string order (Python `sorted` on `str`) -/

/-- Boolean strict lexicographic order on character lists. -/
def lexLtB : List Char → List Char → Bool
  | [], [] => false
  | [], _ :: _ => true
  | _ :: _, [] => false
  | a :: as, b :: bs => if a < b then true else if b < a then false else lexLtB as bs

/-- Boolean strict order on strings, matching Python `<` on `str`. -/
def pyLtStr (a b : String) : Bool := lexLtB a.data b.data

/-- Boolean order `a <= b` on strings, matching Python `<=` on `str`. -/
def pyLeStr (a b : String) : Bool := !(pyLtStr b a)

theorem lexLtB_iff (xs : List Char) : ∀ ys, lexLtB xs ys = true ↔ List.lt xs ys := by
  induction xs with
  | nil =>
    intro ys
    cases ys with
    | nil =>
      simp only [lexLtB]
      exact ⟨fun h => by simp at h, fun h => by cases h⟩
    | cons b bs =>
      simp only [lexLtB]
      exact ⟨fun _ => List.lt.nil b bs, fun _ => trivial⟩
  | cons a as ih =>
    intro ys
    cases ys with
    | nil =>
      simp only [lexLtB]
      exact ⟨fun h => by simp at h, fun h => by cases h⟩
    | cons b bs =>
      simp only [lexLtB]
      by_cases hab : a < b
      · simp only [hab, if_true]
        exact ⟨fun _ => List.lt.head as bs hab, fun _ => trivial⟩
      · by_cases hba : b < a
        · simp only [hab, hba, if_false, if_true]
          constructor
          · intro h; simp at h
          · intro h
            cases h with
            | head _ _ h' => exact absurd h' hab
            | tail h1 h2 _ => exact absurd hba h2
        · simp only [hab, hba, if_false]
          constructor
          · intro h
            exact List.lt.tail hab hba ((ih bs).1 h)
          · intro h
            cases h with
            | head _ _ h' => exact absurd h' hab
            | tail _ _ h3 => exact (ih bs).2 h3

theorem strLt_unfold (a b : String) : a < b ↔ List.lt a.data b.data := by
  rw [String.lt_iff_toList_lt]
  exact Iff.symm (List.lt_iff_lex_lt a.data b.data)

theorem pyLtStr_iff (a b : String) : pyLtStr a b = true ↔ a < b :=
  (lexLtB_iff a.data b.data).trans (strLt_unfold a b).symm

theorem pyLeStr_iff (a b : String) : pyLeStr a b = true ↔ a ≤ b := by
  have h : pyLeStr a b = true ↔ ¬(pyLtStr b a = true) := by
    simp [pyLeStr]
  rw [h, pyLtStr_iff]
  exact not_lt

/-- The relation `pyLeStr` as a Prop, used by the sorting routine. -/
def pyLeRel (a b : String) : Prop := pyLeStr a b = true

instance : DecidableRel pyLeRel := fun a b => instDecidableEqBool (pyLeStr a b) true

instance : IsTotal String pyLeRel :=
  ⟨fun a b => by
    rcases le_total a b with h | h
    · exact Or.inl ((pyLeStr_iff a b).2 h)
    · exact Or.inr ((pyLeStr_iff b a).2 h)⟩

instance : IsTrans String pyLeRel :=
  ⟨fun a b c hab hbc =>
    (pyLeStr_iff a c).2 (le_trans ((pyLeStr_iff a b).1 hab) ((pyLeStr_iff b c).1 hbc))⟩

/-- Python's `sorted` on a list of strings (ascending lexicographic). -/
def pySortedList (l : List String) : List String := List.insertionSort pyLeRel l

theorem pySortedList_sorted (l : List String) :
    List.Sorted (fun a b : String => a ≤ b) (pySortedList l) := by
  have h := List.sorted_insertionSort pyLeRel l
  exact List.Pairwise.imp (fun hab => (pyLeStr_iff _ _).1 hab) h

theorem pySortedList_perm (l : List String) : (pySortedList l).Perm l :=
  List.perm_insertionSort pyLeRel l

/-! ## ChoicePrompter: get_choices and get_choice_value (utils.py) -/

/-- Python's `enumerate(items, start)` as a list of (index, item) pairs. -/
def enumerate1 : Nat → List String → List (Nat × String)
  | _, [] => []
  | i, x :: xs => (i, x) :: enumerate1 (i + 1) xs

/--
`get_choices(items, sort=True)` from utils.py:

    if sort:
        items = sorted(items)
    return {item: choice for choice, item in enumerate(items, 1)}

The dict comprehension assigns `d[item] = choice` pair by pair, so a
duplicate item keeps its first insertion position but receives the
ordinal of its last occurrence (last write wins).
-/
def get_choices (items : List String) (sort : Bool) : List (String × Nat) :=
  (enumerate1 1 (if sort then pySortedList items else items)).foldl
    (fun m p => dictSet m p.2 p.1) []

/--
`get_choice_value(user_choice, choices)` from utils.py:

    choice_value = None
    for name, choice in choices.iteritems():
        choice_value = name if user_choice == choice else choice_value
    return choice_value
-/
def get_choice_value (user_choice : Nat) (choices : List (String × Nat)) : Option String :=
  choices.foldl (fun acc p => if user_choice = p.2 then some p.1 else acc) none

/-- An association list pairing each element of `l` with the ordinals
`i, i+1, ...` in order. -/
def withOrd : Nat → List String → List (String × Nat)
  | _, [] => []
  | i, x :: xs => (x, i) :: withOrd (i + 1) xs

theorem withOrd_keys (l : List String) : ∀ i, (withOrd i l).map Prod.fst = l := by
  induction l with
  | nil => intro i; rfl
  | cons x xs ih => intro i; simp [withOrd, ih]

theorem withOrd_vals (l : List String) : ∀ i, (withOrd i l).map Prod.snd = List.range' i l.length := by
  induction l with
  | nil => intro i; rfl
  | cons x xs ih => intro i; simp [withOrd, ih, List.range'_succ]

theorem get_choices_eq_withOrd_aux (l : List String) :
    ∀ (i : Nat) (m : List (String × Nat)), l.Nodup →
      (∀ x ∈ l, dictGet m x = none) →
      (enumerate1 i l).foldl (fun m p => dictSet m p.2 p.1) m = m ++ withOrd i l := by
  induction l with
  | nil => intro i m _ _; simp [enumerate1, withOrd]
  | cons x xs ih =>
    intro i m hnd hfresh
    simp only [enumerate1, List.foldl_cons, withOrd]
    have hx : dictGet m x = none := hfresh x (by simp)
    rw [dictSet_fresh m x i hx]
    have hnd' : xs.Nodup := (List.nodup_cons.1 hnd).2
    have hxnot : x ∉ xs := (List.nodup_cons.1 hnd).1
    have hfresh' : ∀ y ∈ xs, dictGet (m ++ [(x, i)]) y = none := by
      intro y hy
      have hyx : ¬(x = y) := fun h => hxnot (h ▸ hy)
      have h1 : dictGet m y = none := hfresh y (List.mem_cons_of_mem _ hy)
      rw [dictGet_append_left_none m [(x, i)] y h1]
      simp [dictGet, hyx]
    rw [ih (i + 1) (m ++ [(x, i)]) hnd' hfresh']
    simp

theorem get_choices_eq_withOrd (items : List String) (sort : Bool)
    (hnd : (if sort then pySortedList items else items).Nodup) :
    get_choices items sort = withOrd 1 (if sort then pySortedList items else items) := by
  have h := get_choices_eq_withOrd_aux (if sort then pySortedList items else items) 1 []
    hnd (fun x _ => rfl)
  simpa [get_choices] using h

theorem withOrd_dictGet_pos (l : List String) :
    ∀ (i j : Nat) (h : j < l.length), l.Nodup →
      dictGet (withOrd i l) (l.get ⟨j, h⟩) = some (i + j) := by
  induction l with
  | nil => intro i j h; simp at h
  | cons x xs ih =>
    intro i j h hnd
    cases j with
    | zero => simp [withOrd, dictGet]
    | succ j' =>
      have hget : (x :: xs).get ⟨j' + 1, h⟩ = xs.get ⟨j', Nat.lt_of_succ_lt_succ h⟩ := rfl
      rw [hget]
      have hxnot : x ∉ xs := (List.nodup_cons.1 hnd).1
      have hne : ¬(x = xs.get ⟨j', Nat.lt_of_succ_lt_succ h⟩) := by
        intro hcontra
        exact hxnot (hcontra ▸ xs.get_mem _ _)
      simp only [withOrd, dictGet, hne, if_false]
      rw [ih (i + 1) j' (Nat.lt_of_succ_lt_succ h) (List.nodup_cons.1 hnd).2]
      congr 1
      omega

theorem withOrd_dictGet_inv (l : List String) :
    ∀ (i : Nat) (x : String) (v : Nat), dictGet (withOrd i l) x = some v →
      ∃ j, ∃ h : j < l.length, l.get ⟨j, h⟩ = x ∧ v = i + j := by
  induction l with
  | nil => intro i x v h; simp [withOrd, dictGet] at h
  | cons y ys ih =>
    intro i x v h
    by_cases hyx : y = x
    · simp only [withOrd, dictGet, hyx, if_true, Option.some.injEq] at h
      exact ⟨0, by simp, by simp [hyx], by omega⟩
    · simp only [withOrd, dictGet, hyx, if_false] at h
      obtain ⟨j, hj, hjx, hv⟩ := ih (i + 1) x v h
      exact ⟨j + 1, Nat.succ_lt_succ hj, hjx, by omega⟩

theorem dictSet_vals_nodup {β : Type} [DecidableEq β] (m : List (String × β)) (k : String)
    (v : β) (hfreshv : v ∉ m.map Prod.snd) (hnd : (m.map Prod.snd).Nodup) :
    ((dictSet m k v).map Prod.snd).Nodup := by
  induction m with
  | nil => simp [dictSet]
  | cons q rest ih =>
    obtain ⟨k', v'⟩ := q
    simp only [List.map_cons, List.nodup_cons, List.mem_cons] at hnd hfreshv
    push_neg at hfreshv
    by_cases hk : k' = k
    · simp only [dictSet, hk, if_true, List.map_cons, List.nodup_cons]
      exact ⟨hfreshv.2, hnd.2⟩
    · simp only [dictSet, hk, if_false, List.map_cons, List.nodup_cons]
      refine ⟨fun hmem => ?_, ih hfreshv.2 hnd.2⟩
      rcases vals_dictSet_sub rest k v v' hmem with h | h
      · exact hnd.1 h
      · exact hfreshv.1 h.symm

theorem choices_foldl_vals_nodup (l : List String) :
    ∀ (i : Nat) (m : List (String × Nat)),
      (m.map Prod.snd).Nodup → (∀ w ∈ m.map Prod.snd, w < i) →
      (((enumerate1 i l).foldl (fun m p => dictSet m p.2 p.1) m).map Prod.snd).Nodup := by
  induction l with
  | nil => intro i m hnd _; simpa [enumerate1] using hnd
  | cons x xs ih =>
    intro i m hnd hb
    simp only [enumerate1, List.foldl_cons]
    have hfresh : (i : Nat) ∉ m.map Prod.snd := fun hmem => lt_irrefl i (hb i hmem)
    refine ih (i + 1) (dictSet m x i) (dictSet_vals_nodup m x i hfresh hnd) ?_
    intro w hw
    rcases vals_dictSet_sub m x i w hw with h | h
    · exact Nat.lt_succ_of_lt (hb w h)
    · omega

theorem choices_foldl_keys_nodup (l : List (Nat × String)) :
    ∀ (m : List (String × Nat)), (m.map Prod.fst).Nodup →
      ((l.foldl (fun m p => dictSet m p.2 p.1) m).map Prod.fst).Nodup := by
  induction l with
  | nil => intro m hnd; simpa using hnd
  | cons p ps ih =>
    intro m hnd
    simp only [List.foldl_cons]
    exact ih (dictSet m p.2 p.1) (keys_dictSet_nodup m p.2 p.1 hnd)

theorem get_choices_vals_nodup (items : List String) (sort : Bool) :
    ((get_choices items sort).map Prod.snd).Nodup := by
  unfold get_choices
  exact choices_foldl_vals_nodup _ 1 [] (by simp) (by simp)

theorem get_choices_keys_nodup (items : List String) (sort : Bool) :
    ((get_choices items sort).map Prod.fst).Nodup := by
  unfold get_choices
  exact choices_foldl_keys_nodup _ [] (by simp)

theorem gcv_foldl_no_match (v : Nat) (m : List (String × Nat)) (acc : Option String)
    (h : ∀ p ∈ m, p.2 ≠ v) :
    m.foldl (fun acc p => if v = p.2 then some p.1 else acc) acc = acc := by
  induction m generalizing acc with
  | nil => rfl
  | cons q rest ih =>
    simp only [List.foldl_cons]
    have hq : ¬(v = q.2) := fun hv => h q (by simp) hv.symm
    rw [if_neg hq]
    exact ih acc (fun p hp => h p (List.mem_cons_of_mem _ hp))

theorem gcv_foldl_found (v : Nat) (m : List (String × Nat)) (k : String)
    (hnd : (m.map Prod.snd).Nodup) (hmem : (k, v) ∈ m) :
    ∀ acc, m.foldl (fun acc p => if v = p.2 then some p.1 else acc) acc = some k := by
  induction m with
  | nil => simp at hmem
  | cons q rest ih =>
    intro acc
    simp only [List.map_cons, List.nodup_cons] at hnd
    simp only [List.foldl_cons]
    rcases List.mem_cons.1 hmem with h | h
    · have hq2 : q.2 = v := by rw [← h]
      have hq1 : q.1 = k := by rw [← h]
      rw [if_pos hq2.symm, hq1]
      refine gcv_foldl_no_match v rest (some k) ?_
      intro p hp hpv
      have : q.2 ∈ rest.map Prod.snd := by
        rw [hq2, ← hpv]
        exact List.mem_map.2 ⟨p, hp, rfl⟩
      exact hnd.1 this
    · by_cases hq : v = q.2
      · exfalso
        exact hnd.1 (hq ▸ (List.mem_map.2 ⟨(k, v), h, rfl⟩))
      · rw [if_neg hq]
        exact ih hnd.2 h acc

/-- C4 counterexample: for the duplicate-containing input `["a", "a"]` the
choice map is `{"a": 2}` (last write wins), whose ordinal set `{2}` is not
contiguous starting at 1, refuting the claim that ordinals of the choice
map are contiguous starting at 1 for every input list including
duplicates. -/
theorem claim_C4_cex :
    get_choices ["a", "a"] true = [("a", 2)] ∧
    ¬ ((get_choices ["a", "a"] true).map Prod.snd).Perm
        (List.range' 1 (get_choices ["a", "a"] true).length) := by
  constructor
  · decide
  · decide

/-- C4 (amended): the ordinals of a choice map built by `get_choices` are
always pairwise distinct, and when the input list has no duplicate items
they are exactly the contiguous block 1..n (in key insertion order); with
duplicate items contiguity can fail. -/
theorem claim_C4_amended (items : List String) (sort : Bool) :
    ((get_choices items sort).map Prod.snd).Nodup ∧
    (items.Nodup → (get_choices items sort).map Prod.snd = List.range' 1 items.length) := by
  refine ⟨get_choices_vals_nodup items sort, fun hnd => ?_⟩
  cases sort with
  | false =>
    rw [get_choices_eq_withOrd items false (by simpa using hnd)]
    simpa using withOrd_vals items 1
  | true =>
    have hnd' : (pySortedList items).Nodup := (pySortedList_perm items).nodup_iff.2 hnd
    rw [get_choices_eq_withOrd items true (by simpa using hnd')]
    simp only [if_true]
    rw [withOrd_vals (pySortedList items) 1, (pySortedList_perm items).length_eq]

/-- C4 witness: instantiation of the amended claim at the duplicate-free
input `["b", "a"]`. -/
theorem claim_C4_witness :
    ((get_choices ["b", "a"] true).map Prod.snd).Nodup ∧
    (get_choices ["b", "a"] true).map Prod.snd = List.range' 1 2 :=
  ⟨(claim_C4_amended ["b", "a"] true).1,
   (claim_C4_amended ["b", "a"] true).2 (by decide)⟩

/-- C5 counterexample: with `sort=false` and input `["a", "a"]` the item at
position 1 (namely `"a"`) receives ordinal 2, not ordinal 1, refuting the
claim that for every sequence the item at position i gets ordinal i. -/
theorem claim_C5_cex :
    dictGet (get_choices ["a", "a"] false) "a" = some 2 ∧
    ¬ dictGet (get_choices ["a", "a"] false) "a" = some 1 := by
  constructor
  · decide
  · decide

/-- C5 (amended): for a sequence of distinct strings, `get_choices` with
`sort=true` assigns ordinal 1 to the lexicographically smallest item and
its ordinals are ordered exactly as the items are ordered
lexicographically (hence contiguous increasing in ascending order), and
with `sort=false` the item at position i (counting from 1) gets ordinal i;
for sequences with duplicates the positional rule fails. -/
theorem claim_C5_amended (items : List String) (hnd : items.Nodup) :
    (∀ x ∈ items, (∀ y ∈ items, x ≤ y) → dictGet (get_choices items true) x = some 1) ∧
    (∀ x y ix iy, dictGet (get_choices items true) x = some ix →
      dictGet (get_choices items true) y = some iy → (ix ≤ iy ↔ x ≤ y)) ∧
    (∀ j, ∀ h : j < items.length,
      dictGet (get_choices items false) (items.get ⟨j, h⟩) = some (j + 1)) := by
  have hperm := pySortedList_perm items
  have hsnd : (pySortedList items).Nodup := hperm.nodup_iff.2 hnd
  have hlt : List.Sorted (fun a b : String => a < b) (pySortedList items) :=
    (pySortedList_sorted items).lt_of_le hsnd
  have hmono := hlt.get_strictMono
  have heq : get_choices items true = withOrd 1 (pySortedList items) := by
    simpa using get_choices_eq_withOrd items true (by simpa using hsnd)
  refine ⟨?_, ?_, ?_⟩
  · intro x hx hmin
    have hxs : x ∈ pySortedList items := hperm.mem_iff.2 hx
    obtain ⟨⟨j, hj⟩, hget⟩ := List.mem_iff_get.1 hxs
    have hj0 : j = 0 := by
      by_contra hj0
      have h0 : 0 < (pySortedList items).length := by omega
      have hlt0 : (pySortedList items).get ⟨0, h0⟩ < (pySortedList items).get ⟨j, hj⟩ :=
        hmono (by exact Fin.mk_lt_mk.2 (Nat.pos_of_ne_zero hj0))
      have hmem0 : (pySortedList items).get ⟨0, h0⟩ ∈ items :=
        hperm.mem_iff.1 (List.get_mem _ _ _)
      have := hmin _ hmem0
      rw [hget] at hlt0
      exact absurd (lt_of_le_of_lt this hlt0) (lt_irrefl x)
    subst hj0
    rw [heq, ← hget]
    simpa using withOrd_dictGet_pos (pySortedList items) 1 0 hj hsnd
  · intro x y ix iy hix hiy
    rw [heq] at hix hiy
    obtain ⟨jx, hjx, hgx, hvx⟩ := withOrd_dictGet_inv (pySortedList items) 1 x ix hix
    obtain ⟨jy, hjy, hgy, hvy⟩ := withOrd_dictGet_inv (pySortedList items) 1 y iy hiy
    subst hvx hvy
    rw [← hgx, ← hgy]
    constructor
    · intro hle
      exact hmono.le_iff_le.2 (Fin.mk_le_mk.2 (by omega))
    · intro hle
      have := Fin.mk_le_mk.1 (hmono.le_iff_le.1 hle)
      omega
  · intro j h
    have heqf : get_choices items false = withOrd 1 items := by
      simpa using get_choices_eq_withOrd items false (by simpa using hnd)
    rw [heqf, withOrd_dictGet_pos items 1 j h hnd]
    congr 1
    omega

/-- C5 witness: instantiation of the amended claim at `["b", "a"]`: the
lexicographically smallest item `"a"` gets ordinal 1 under `sort=true`,
and the first item `"b"` gets ordinal 1 under `sort=false`. -/
theorem claim_C5_witness :
    dictGet (get_choices ["b", "a"] true) "a" = some 1 ∧
    dictGet (get_choices ["b", "a"] false) (["b", "a"].get ⟨0, by decide⟩) = some 1 :=
  ⟨(claim_C5_amended ["b", "a"] (by decide)).1 "a" (by decide)
    (by
      intro y hy
      rcases List.mem_cons.1 hy with h | h
      · rw [h]
        exact (pyLeStr_iff "a" "b").1 (by decide)
      · rcases List.mem_cons.1 h with h' | h'
        · rw [h']
        · simp at h'),
   (claim_C5_amended ["b", "a"] (by decide)).2.2 0 (by decide)⟩

/-- C7: round-trip property; for every choice map produced by
`get_choices` and every ordinal assigned in it, `get_choice_value`
returns a label whose entry in the map carries exactly that ordinal. -/
theorem claim_C7 (items : List String) (sort : Bool) (v : Nat)
    (hv : v ∈ (get_choices items sort).map Prod.snd) :
    ∃ k, get_choice_value v (get_choices items sort) = some k ∧
      dictGet (get_choices items sort) k = some v := by
  obtain ⟨p, hp, hpv⟩ := List.mem_map.1 hv
  obtain ⟨k, v'⟩ := p
  have hp' : (k, v) ∈ get_choices items sort := by
    have hv' : v' = v := hpv
    rw [← hv']
    exact hp
  refine ⟨k, ?_, ?_⟩
  · exact gcv_foldl_found v (get_choices items sort) k
      (get_choices_vals_nodup items sort) hp' none
  · exact dictGet_of_mem (get_choices items sort) k v
      (get_choices_keys_nodup items sort) hp'

/-- C7 witness: instantiation at `["b", "a"]`, `sort=true`, ordinal 1. -/
theorem claim_C7_witness :
    ∃ k, get_choice_value 1 (get_choices ["b", "a"] true) = some k ∧
      dictGet (get_choices ["b", "a"] true) k = some 1 :=
  claim_C7 ["b", "a"] true 1 (by decide)

/-- C10: `get_choice_value` returns None for an ordinal not assigned to
any label, and for a map with pairwise distinct ordinals it returns the
unique label carrying an assigned ordinal. -/
theorem claim_C10 (choices : List (String × Nat)) (v : Nat) :
    ((∀ p ∈ choices, p.2 ≠ v) → get_choice_value v choices = none) ∧
    ((choices.map Prod.snd).Nodup →
      ∀ k, (k, v) ∈ choices → get_choice_value v choices = some k) :=
  ⟨fun h => gcv_foldl_no_match v choices none h,
   fun hnd k hmem => gcv_foldl_found v choices k hnd hmem none⟩

/-- C10 witness: instantiation at the map `{"A": 1, "B": 2}` with the
unassigned ordinal 3 and the assigned ordinal 2. -/
theorem claim_C10_witness :
    get_choice_value 3 [("A", 1), ("B", 2)] = none ∧
    get_choice_value 2 [("A", 1), ("B", 2)] = some "B" :=
  ⟨(claim_C10 [("A", 1), ("B", 2)] 3).1 (by decide),
   (claim_C10 [("A", 1), ("B", 2)] 2).2 (by decide) "B" (by decide)⟩

/-! ## DigestVerifier: verify_download (utils.py) -/

/--
The manifest scan of `verify_download`:

    valid_sha512 = None
    with open(digest_path, 'r') as digest_file:
        for line in digest_file:
            if line.startswith('# SHA512 HASH'):
                hash_line = digest_file.next().strip()
                if hash_line.endswith(download_file):
                    valid_sha512 = hash_line.split()[0]
                    break

`digest_file.next()` advances the shared file iterator, so after a
non-matching candidate line the for loop resumes on the line after it.
At end of file `next()` raises StopIteration; `split()[0]` on a blank
candidate raises IndexError.  `.ok none` means the loop finished with
`valid_sha512` still `None`.
-/
def scanDigest (bn : String) : List String → Except PyErr (Option String)
  | [] => .ok none
  | [line] =>
    if strStarts line "# SHA512 HASH" then .error .stopIter else .ok none
  | line :: h :: rest2 =>
    if strStarts line "# SHA512 HASH" then
      if strEnds (pyStrip h) bn then
        match pySplit (pyStrip h) with
        | [] => .error .indexError
        | d :: _ => .ok (some d)
      else scanDigest bn rest2
    else scanDigest bn (h :: rest2)

/--
`verify_download(download_path, digest_path)` from utils.py.  The SHA-512
implementation is external; it is passed in as `sha512hex`, and the
download file's byte content as `content`.  The manifest is passed as its
list of lines.  After the scan the code returns
`hasher.hexdigest() == valid_sha512`; comparing a string against Python
`None` is `False`.
-/
def verify_download (sha512hex : List Nat → String) (content : List Nat)
    (download_path : String) (digestLines : List String) : Except PyErr Bool :=
  match scanDigest (basename download_path) digestLines with
  | .error e => .error e
  | .ok none => .ok false
  | .ok (some d) => .ok (sha512hex content == d)

theorem scanDigest_no_marker (bn : String) (lines : List String)
    (h : ∀ l ∈ lines, strStarts l "# SHA512 HASH" = false) :
    scanDigest bn lines = .ok none := by
  induction lines with
  | nil => rfl
  | cons l rest ih =>
    have hl : strStarts l "# SHA512 HASH" = false := h l (by simp)
    cases rest with
    | nil => simp only [scanDigest, hl, Bool.false_eq_true, if_false]
    | cons h2 rest2 =>
      simp only [scanDigest, hl, Bool.false_eq_true, if_false]
      exact ih (fun l' hl' => h l' (List.mem_cons_of_mem _ hl'))

theorem scanDigest_skip (bn : String) (pre : List String) :
    ∀ rest, (∀ l ∈ pre, strStarts l "# SHA512 HASH" = false) →
      scanDigest bn (pre ++ rest) = scanDigest bn rest := by
  induction pre with
  | nil => intro rest _; rfl
  | cons l pre' ih =>
    intro rest h
    have hl : strStarts l "# SHA512 HASH" = false := h l (by simp)
    have h' : ∀ l' ∈ pre', strStarts l' "# SHA512 HASH" = false :=
      fun l' hl' => h l' (List.mem_cons_of_mem _ hl')
    cases hpr : pre' ++ rest with
    | nil =>
      rcases List.append_eq_nil.1 hpr with ⟨hp, hr⟩
      subst hp hr
      simp only [List.append_nil, List.cons_append, List.append_nil]
      simp only [scanDigest, hl, Bool.false_eq_true, if_false]
    | cons h2 t2 =>
      have : (l :: pre') ++ rest = l :: h2 :: t2 := by
        rw [List.cons_append, hpr]
      rw [this]
      simp only [scanDigest, hl, Bool.false_eq_true, if_false]
      rw [← hpr]
      exact ih rest h'

/-- C1 counterexample: a manifest whose single line is the marker
`"# SHA512 HASH"` makes `verify_download` raise StopIteration (the
`digest_file.next()` call runs off the end of the file) instead of
returning false, refuting the never-raises part of the claim. -/
theorem claim_C1_cex :
    verify_download (fun _ => "") [] "f" ["# SHA512 HASH"] = .error .stopIter ∧
    ¬ verify_download (fun _ => "") [] "f" ["# SHA512 HASH"] = .ok false := by
  constructor
  · decide
  · decide

/-- C1 (amended): with no marker line `verify_download` returns false;
when the line after the first marker ends with the basename and has a
first token d, it returns whether the SHA-512 hex digest of the file
content equals d (true exactly on digest match); but when the first
marker is the manifest's last line it raises StopIteration rather than
returning false (and a blank matching candidate raises IndexError). -/
theorem claim_C1_amended (hash : List Nat → String) (content : List Nat)
    (path : String) (lines : List String) :
    ((∀ l ∈ lines, strStarts l "# SHA512 HASH" = false) →
      verify_download hash content path lines = .ok false) ∧
    (∀ pre m h post, lines = pre ++ m :: h :: post →
      (∀ l ∈ pre, strStarts l "# SHA512 HASH" = false) →
      strStarts m "# SHA512 HASH" = true →
      strEnds (pyStrip h) (basename path) = true →
      ∀ d ds, pySplit (pyStrip h) = d :: ds →
      verify_download hash content path lines = .ok (hash content == d)) ∧
    (∀ pre m, lines = pre ++ [m] →
      (∀ l ∈ pre, strStarts l "# SHA512 HASH" = false) →
      strStarts m "# SHA512 HASH" = true →
      verify_download hash content path lines = .error .stopIter) := by
  refine ⟨?_, ?_, ?_⟩
  · intro hno
    simp only [verify_download, scanDigest_no_marker (basename path) lines hno]
  · intro pre m h post hsplit hpre hm hend d ds htok
    subst hsplit
    simp only [verify_download,
      scanDigest_skip (basename path) pre (m :: h :: post) hpre]
    simp only [scanDigest, hm, if_true, hend, htok]
  · intro pre m hsplit hpre hm
    subst hsplit
    simp only [verify_download, scanDigest_skip (basename path) pre [m] hpre]
    simp only [scanDigest, hm, if_true]

/-- C1 witness: instantiations of the three branches of the amended
claim at concrete manifests for the download basename "f". -/
theorem claim_C1_witness :
    verify_download (fun _ => "ab") [] "f" ["x"] = .ok false ∧
    verify_download (fun _ => "ab") [] "f" ["# SHA512 HASH", "ab f"] =
      .ok ((fun _ : List Nat => "ab") [] == "ab") ∧
    verify_download (fun _ => "ab") [] "f" ["# SHA512 HASH"] = .error .stopIter :=
  ⟨(claim_C1_amended (fun _ => "ab") [] "f" ["x"]).1 (by decide),
   (claim_C1_amended (fun _ => "ab") [] "f" ["# SHA512 HASH", "ab f"]).2.1
     [] "# SHA512 HASH" "ab f" [] rfl (by simp) (by decide) (by decide) "ab" ["f"] (by decide),
   (claim_C1_amended (fun _ => "ab") [] "f" ["# SHA512 HASH"]).2.2
     [] "# SHA512 HASH" rfl (by simp) (by decide)⟩

/-- C2 counterexample: a manifest whose first marker is followed by a
non-matching line but whose second marker is followed by the matching
record verifies successfully (the constant hash used here is the SHA-512
hex digest of the empty byte string, matching `content = []`), refuting
the claim that later markers are never consulted and verification
returns false. -/
theorem claim_C2_cex :
    verify_download
      (fun _ => "cf83e1357eefb8bdf1542850d66d8007d620e4050b5715dc83f4a921d36ce9ce47d0d13c5d85f2b0ff8318d2877eec2f63b931bd47417a81a538327af927da3e")
      [] "install.iso"
      ["# SHA512 HASH", "other.iso record", "# SHA512 HASH",
       "cf83e1357eefb8bdf1542850d66d8007d620e4050b5715dc83f4a921d36ce9ce47d0d13c5d85f2b0ff8318d2877eec2f63b931bd47417a81a538327af927da3e install.iso"]
      = .ok true := by
  decide

/-- C2 (amended): when the line immediately after the first marker does
not end with the download basename, no record is taken from it, but the
scan resumes on the line after the consumed candidate, so later markers
are still consulted: the result equals that of running verify on the
remaining lines. -/
theorem claim_C2_amended (hash : List Nat → String) (content : List Nat)
    (path : String) (pre : List String) (m h : String) (rest : List String)
    (hpre : ∀ l ∈ pre, strStarts l "# SHA512 HASH" = false)
    (hm : strStarts m "# SHA512 HASH" = true)
    (hh : strEnds (pyStrip h) (basename path) = false) :
    verify_download hash content path (pre ++ m :: h :: rest) =
      verify_download hash content path rest := by
  simp only [verify_download,
    scanDigest_skip (basename path) pre (m :: h :: rest) hpre]
  simp only [scanDigest, hm, if_true, hh, Bool.false_eq_true, if_false]

/-- C2 witness: instantiation of the amended claim showing the scan
passing over a non-matching first marker to the rest of the manifest. -/
theorem claim_C2_witness :
    verify_download (fun _ => "ab") [] "f"
      ("# SHA512 HASH" :: "x" :: ["# SHA512 HASH", "ab f"]) =
      verify_download (fun _ => "ab") [] "f" ["# SHA512 HASH", "ab f"] :=
  claim_C2_amended (fun _ => "ab") [] "f" [] "# SHA512 HASH" "x"
    ["# SHA512 HASH", "ab f"] (by simp) (by decide) (by decide)

/-! ## MirrorCatalog: get_mirrors_from_web and get_mirrors_from_json (mirror.py) -/

mutual
/-- An HTML document tree as BeautifulSoup presents it: element tags with
attributes and children, and navigable strings.  The children sit in an
`HForest` (a specialised list) so that all recursion over the tree is
structural. -/
inductive HNode where
  | elem (name : String) (attrs : List (String × String)) (children : HForest)
  | textN (s : String)
/-- A list of sibling HTML nodes. -/
inductive HForest where
  | nil
  | cons (n : HNode) (f : HForest)
end

/-- Build an `HForest` from a list literal of nodes. -/
def hlist : List HNode → HForest
  | [] => HForest.nil
  | n :: r => HForest.cons n (hlist r)

/-- Country code allow-list `SUPPORTED_COUNTRIES` from mirror.py. -/
def SUPPORTED_COUNTRIES : List String :=
  ["CA", "US", "AR", "BR", "AT", "BG", "CZ", "FI", "FR", "DE", "GR", "IE",
   "NL", "PL", "PT", "RO", "SE", "SK", "ES", "CH", "TR", "UA", "UK", "AU",
   "CN", "HK", "JP", "KR", "RU", "TW", "IL", "KZ"]

/-- BeautifulSoup `tag.string`: the single navigable-string content of a
tag, recursing through a unique child, None otherwise. -/
def nodeString : HNode → Option String
  | HNode.textN s => some s
  | HNode.elem _ _ (HForest.cons c HForest.nil) => nodeString c
  | HNode.elem _ _ _ => none

mutual
/-- `find_all(True)` rooted at one node: the node itself when it is an
element tag, followed by all element tags below it, in document order. -/
def allTagsN : HNode → List HNode
  | HNode.textN _ => []
  | HNode.elem nm a c => HNode.elem nm a c :: allTagsF c
/-- `find_all(True)` over a forest of siblings. -/
def allTagsF : HForest → List HNode
  | HForest.nil => []
  | HForest.cons n f => allTagsN n ++ allTagsF f
end

mutual
/-- `tag.descendants` over a forest of children: every descendant node,
elements and strings alike, in document order. -/
def descF : HForest → List HNode
  | HForest.nil => []
  | HForest.cons n f => n :: (descSub n ++ descF f)
/-- The descendants strictly below one node. -/
def descSub : HNode → List HNode
  | HNode.textN _ => []
  | HNode.elem _ _ c => descF c
end

/-- Characters allowed in a URL scheme by `urlparse` (letters, digits,
plus, minus, dot). -/
def schemeChar (c : Char) : Bool :=
  c.isAlpha || c.isDigit || c == '+' || c == '-' || c == '.'

/-- `urlparse(url).scheme` (Python 2 `urlparse`): the lower-cased text
before the first colon when that colon exists at a positive position and
every character before it is a scheme character; otherwise the empty
string. -/
def urlscheme (url : String) : String :=
  let pre := url.data.takeWhile (fun c => !(c == ':'))
  if pre.length < url.data.length && !pre.isEmpty && pre.all schemeChar then
    String.mk (pre.map Char.toLower)
  else ""

/-- The nested country-to-mirrors mapping built by the scraper. -/
abbrev MirrorMap := List (String × List (String × String))

/-- The scraper's loop state: the mirrors built so far, the open country
section (None outside a section) and the Python local `mirror_name`,
which is unset (outer None means NameError on use) until a row-spanning
cell is seen and may itself hold Python None (inner None) when that cell
has no string. -/
structure ScrapeSt where
  mirrors : MirrorMap
  countryName : Option String
  mirrorName : Option (Option String)
deriving DecidableEq

/-- The heading test of the scraper:
`tag.name == 'h3' and tag.get('id') in SUPPORTED_COUNTRIES` (a missing
`id` gives Python None, which is not in the list). -/
def isCountryHeading (nm : String) (attrs : List (String × String)) : Bool :=
  nm == "h3" &&
    (match dictGet attrs "id" with
     | some cid => SUPPORTED_COUNTRIES.contains cid
     | none => false)

/-- Truthiness of `descendant.get('rowspan')`: present and non-empty. -/
def rowspanTruthy (attrs : List (String × String)) : Bool :=
  match dictGet attrs "rowspan" with
  | some v => !(v == "")
  | none => false

/-- Python `'%s' % x` where `x` is a string or None. -/
def fmtPyOpt : Option String → String
  | some s => s
  | none => "None"

/--
One step of the scraper's inner loop over a table's descendants, for the
open country `c`:

    if descendant.name == 'td' and descendant.get('rowspan'):
        mirror_name = descendant.string
    if descendant.name == 'a':
        mirror_link = descendant['href']
        protocol = urlparse(mirror_link).scheme
        name_with_protocol = '%s (%s)' % (mirror_name, protocol)
        if protocol == 'http':
            mirrors[country_name][name_with_protocol] = mirror_link

Reading `mirror_name` before any assignment raises NameError; a link
without `href` raises KeyError.  The accumulator carries
(mirrors, mirror_name).
-/
def tableStep (c : String) (acc : MirrorMap × Option (Option String)) (d : HNode) :
    Except PyErr (MirrorMap × Option (Option String)) :=
  match d with
  | HNode.textN _ => .ok acc
  | HNode.elem nm attrs children =>
    let mn1 : Option (Option String) :=
      if nm == "td" && rowspanTruthy attrs then
        some (nodeString (HNode.elem nm attrs children))
      else acc.2
    if nm == "a" then
      match mn1 with
      | none => .error .nameError
      | some mname =>
        match dictGet attrs "href" with
        | none => .error .keyError
        | some link =>
          if urlscheme link == "http" then
            match dictGet acc.1 c with
            | none => .error .keyError
            | some cur =>
              .ok (dictSet acc.1 c
                (dictSet cur (fmtPyOpt mname ++ " (" ++ urlscheme link ++ ")") link),
                mn1)
          else .ok (acc.1, mn1)
    else .ok (acc.1, mn1)

/--
One step of the scraper's outer loop over `soup.find_all(True)`: open a
country section on a recognised level-3 heading (its display name is the
third whitespace token of the heading's string; a missing string raises
AttributeError, fewer than three tokens raises IndexError), process a
table inside an open section through `tableStep` and then close the
section, and skip every other tag.
-/
def scrapeStep (st : ScrapeSt) (tag : HNode) : Except PyErr ScrapeSt :=
  match tag with
  | HNode.textN _ => .ok st
  | HNode.elem nm attrs children =>
    if isCountryHeading nm attrs then
      match nodeString (HNode.elem nm attrs children) with
      | none => .error .attributeError
      | some s =>
        match (pySplit s).get? 2 with
        | none => .error .indexError
        | some cname =>
          .ok { mirrors := dictSet st.mirrors cname [],
                countryName := some cname, mirrorName := st.mirrorName }
    else
      match st.countryName with
      | some c =>
        if nm == "table" then
          match (descF children).foldlM (tableStep c) (st.mirrors, st.mirrorName) with
          | .error e => .error e
          | .ok (ms, mn) =>
            .ok { mirrors := ms, countryName := none, mirrorName := mn }
        else .ok st
      | none => .ok st

/-- The scraper's initial state. -/
def initState : ScrapeSt :=
  { mirrors := [], countryName := none, mirrorName := none }

/--
`get_mirrors_from_web(country=None)` from mirror.py, over the fetched
document `doc`: a single linear scan over all tags, then
`return {country: mirrors[country]} if country else mirrors` — a country
missing from the map raises KeyError.
-/
def get_mirrors_from_web (doc : HNode) (country : Option String) :
    Except PyErr MirrorMap :=
  match (allTagsN doc).foldlM scrapeStep initState with
  | .error e => .error e
  | .ok st =>
    match country with
    | none => .ok st.mirrors
    | some c =>
      match dictGet st.mirrors c with
      | none => .error .keyError
      | some v => .ok [(c, v)]

/--
`get_mirrors_from_json(country=None)` from mirror.py.  The cached file's
outcome is passed in: `none` = IOError opening, `some none` = invalid
JSON (both re-raised as RuntimeError), `some (some mirrors)` = the parsed
map.  The same final filter applies, and its KeyError for a missing
country is raised inside the `try` but is not caught by
`except (IOError, ValueError)`.
-/
def get_mirrors_from_json (file : Option (Option MirrorMap)) (country : Option String) :
    Except PyErr MirrorMap :=
  match file with
  | none => .error .runtimeError
  | some none => .error .runtimeError
  | some (some mirrors) =>
    match country with
    | none => .ok mirrors
    | some c =>
      match dictGet mirrors c with
      | none => .error .keyError
      | some v => .ok [(c, v)]

/-- Every URL stored in a MirrorMap uses the http scheme. -/
def httpOnly (m : MirrorMap) : Prop :=
  ∀ p ∈ m, ∀ q ∈ p.2, urlscheme q.2 = "http"

theorem foldlM_ex_pres {σ α : Type} (step : σ → α → Except PyErr σ) (Q : σ → Prop)
    (hstep : ∀ s a s', Q s → step s a = .ok s' → Q s') :
    ∀ (l : List α) (s s' : σ), Q s → l.foldlM step s = .ok s' → Q s' := by
  intro l
  induction l with
  | nil =>
    intro s s' hQ h
    simp only [List.foldlM_nil] at h
    cases h
    exact hQ
  | cons a t ih =>
    intro s s' hQ h
    rw [List.foldlM_cons] at h
    cases hsa : step s a with
    | error e =>
      rw [hsa] at h
      simp [Bind.bind, Except.bind] at h
    | ok s1 =>
      rw [hsa] at h
      simp only [Bind.bind, Except.bind] at h
      exact ih s1 s' (hstep s a s1 hQ hsa) h

theorem httpOnly_dictSet_country (m : MirrorMap) (c : String)
    (ms : List (String × String)) (hQ : httpOnly m)
    (hms : ∀ q ∈ ms, urlscheme q.2 = "http") : httpOnly (dictSet m c ms) := by
  intro p hp q hq
  rcases mem_dictSet m c ms p hp with h | h
  · exact hQ p h q hq
  · rw [h] at hq
    exact hms q hq

theorem tableStep_pres (c : String) (acc : MirrorMap × Option (Option String))
    (d : HNode) (acc' : MirrorMap × Option (Option String))
    (hQ : httpOnly acc.1) (h : tableStep c acc d = .ok acc') : httpOnly acc'.1 := by
  cases d with
  | textN s =>
    simp only [tableStep] at h
    cases h
    exact hQ
  | elem nm attrs children =>
    simp only [tableStep] at h
    split at h
    · split at h
      · exact absurd h (by simp)
      · split at h
        · exact absurd h (by simp)
        · split at h
          · rename_i hhttp
            split at h
            · exact absurd h (by simp)
            · rename_i cur hcur
              cases h
              refine httpOnly_dictSet_country acc.1 c _ hQ ?_
              intro q hq
              rcases mem_dictSet cur _ _ q hq with h' | h'
              · exact hQ (c, cur) (mem_of_dictGet acc.1 c cur hcur) q h'
              · rw [h']
                exact eq_of_beq hhttp
          · cases h
            exact hQ
    · cases h
      exact hQ

theorem scrapeStep_pres (st : ScrapeSt) (tag : HNode) (st' : ScrapeSt)
    (hQ : httpOnly st.mirrors) (h : scrapeStep st tag = .ok st') :
    httpOnly st'.mirrors := by
  cases tag with
  | textN s =>
    simp only [scrapeStep] at h
    cases h
    exact hQ
  | elem nm attrs children =>
    simp only [scrapeStep] at h
    by_cases hhead : isCountryHeading nm attrs = true
    · rw [if_pos hhead] at h
      cases hns : nodeString (HNode.elem nm attrs children) with
      | none => rw [hns] at h; exact absurd h (by simp)
      | some s =>
        rw [hns] at h
        simp only at h
        cases hsw : (pySplit s).get? 2 with
        | none => rw [hsw] at h; exact absurd h (by simp)
        | some cname =>
          rw [hsw] at h
          simp only at h
          cases h
          refine httpOnly_dictSet_country st.mirrors cname [] hQ ?_
          intro q hq
          simp at hq
    · rw [if_neg hhead] at h
      cases hcn : st.countryName with
      | none =>
        rw [hcn] at h
        simp only at h
        cases h
        exact hQ
      | some c =>
        rw [hcn] at h
        simp only at h
        by_cases htbl : (nm == "table") = true
        · rw [if_pos htbl] at h
          cases hfold : (descF children).foldlM (tableStep c)
              (st.mirrors, st.mirrorName) with
          | error e => rw [hfold] at h; exact absurd h (by simp)
          | ok pair =>
            obtain ⟨ms, mn⟩ := pair
            rw [hfold] at h
            simp only at h
            cases h
            exact foldlM_ex_pres (tableStep c) (fun a => httpOnly a.1)
              (fun s a s' hs hstep => tableStep_pres c s a s' hs hstep)
              (descF children) (st.mirrors, st.mirrorName) (ms, mn) hQ hfold
        · rw [if_neg htbl] at h
          cases h
          exact hQ

theorem scrape_httpOnly (doc : HNode) (country : Option String) (m : MirrorMap)
    (h : get_mirrors_from_web doc country = .ok m) : httpOnly m := by
  unfold get_mirrors_from_web at h
  cases hf : (allTagsN doc).foldlM scrapeStep initState with
  | error e => rw [hf] at h; exact absurd h (by simp)
  | ok st =>
    rw [hf] at h
    have hst : httpOnly st.mirrors :=
      foldlM_ex_pres scrapeStep (fun s => httpOnly s.mirrors)
        (fun s a s' hs hstep => scrapeStep_pres s a s' hs hstep)
        (allTagsN doc) initState st (by intro p hp; simp [initState] at hp) hf
    cases country with
    | none =>
      cases h
      exact hst
    | some c =>
      simp only at h
      split at h
      · exact absurd h (by simp)
      · rename_i v hv
        cases h
        intro p hp q hq
        simp only [List.mem_singleton] at hp
        rw [hp] at hq
        exact hst (c, v) (mem_of_dictGet st.mirrors c v hv) q hq

/-- A mirrors page with one recognised country heading followed by one
table containing one row-spanning name cell and two links, one http and
one ftp. -/
def exampleDoc : HNode :=
  HNode.elem "html" [] (hlist [
    HNode.elem "h3" [("id", "NL")] (hlist [HNode.textN "NL - Netherlands"]),
    HNode.elem "table" [] (hlist [
      HNode.elem "tr" [] (hlist [
        HNode.elem "td" [("rowspan", "2")] (hlist [HNode.textN "LeaseWeb"]),
        HNode.elem "td" [] (hlist [
          HNode.elem "a" [("href", "http://mirror.leaseweb.com/gentoo/")]
            (hlist [HNode.textN "http://mirror.leaseweb.com/gentoo/"])])]),
      HNode.elem "tr" [] (hlist [
        HNode.elem "td" [] (hlist [
          HNode.elem "a" [("href", "ftp://mirror.leaseweb.com/gentoo/")]
            (hlist [HNode.textN "ftp://mirror.leaseweb.com/gentoo/"])])])])])

/-- C6: every URL stored in a MirrorMap built by the live scrape has URL
scheme exactly http (non-http links are dropped during construction);
and on a page with one recognised country heading, one table, one
row-spanning name cell and one http plus one ftp link, the country's
entry holds exactly the one mirror labeled "LeaseWeb (http)". -/
theorem claim_C6 :
    (∀ (doc : HNode) (country : Option String) (m : MirrorMap),
      get_mirrors_from_web doc country = .ok m →
      ∀ p ∈ m, ∀ q ∈ p.2, urlscheme q.2 = "http") ∧
    get_mirrors_from_web exampleDoc none =
      .ok [("Netherlands", [("LeaseWeb (http)", "http://mirror.leaseweb.com/gentoo/")])] := by
  constructor
  · intro doc country m h p hp q hq
    exact scrape_httpOnly doc country m h p hp q hq
  · decide

/-- C6 witness: the http-scheme invariant applied to the example page's
scrape result. -/
theorem claim_C6_witness :
    urlscheme "http://mirror.leaseweb.com/gentoo/" = "http" :=
  claim_C6.1 exampleDoc none
    [("Netherlands", [("LeaseWeb (http)", "http://mirror.leaseweb.com/gentoo/")])]
    claim_C6.2
    ("Netherlands", [("LeaseWeb (http)", "http://mirror.leaseweb.com/gentoo/")])
    (by decide)
    ("LeaseWeb (http)", "http://mirror.leaseweb.com/gentoo/")
    (by decide)

/-- C3 counterexample: filtering for a country that is not a key of the
map raises KeyError in both operations (the final
`{country: mirrors[country]}` indexing) instead of returning an empty
result. -/
theorem claim_C3_cex :
    get_mirrors_from_json
      (some (some [("USA", [("mirror (http)", "http://m/")])])) (some "France") =
      .error .keyError ∧
    ¬ get_mirrors_from_json
      (some (some [("USA", [("mirror (http)", "http://m/")])])) (some "France") =
      .ok [] ∧
    get_mirrors_from_web exampleDoc (some "France") = .error .keyError ∧
    ¬ get_mirrors_from_web exampleDoc (some "France") = .ok [] := by
  refine ⟨by decide, by decide, by decide⟩

/-- C3 (amended): for a country present in the map both operations return
the one-entry map for it; for a country that is absent both raise
KeyError rather than returning an empty result. -/
theorem claim_C3_amended (c : String) :
    (∀ mirrors : MirrorMap,
      (dictGet mirrors c = none →
        get_mirrors_from_json (some (some mirrors)) (some c) = .error .keyError) ∧
      (∀ v, dictGet mirrors c = some v →
        get_mirrors_from_json (some (some mirrors)) (some c) = .ok [(c, v)])) ∧
    (∀ (doc : HNode) (full : MirrorMap), get_mirrors_from_web doc none = .ok full →
      (dictGet full c = none →
        get_mirrors_from_web doc (some c) = .error .keyError) ∧
      (∀ v, dictGet full c = some v →
        get_mirrors_from_web doc (some c) = .ok [(c, v)])) := by
  constructor
  · intro mirrors
    constructor
    · intro hnone
      simp only [get_mirrors_from_json, hnone]
    · intro v hv
      simp only [get_mirrors_from_json, hv]
  · intro doc full hfull
    unfold get_mirrors_from_web at hfull ⊢
    cases hf : (allTagsN doc).foldlM scrapeStep initState with
    | error e => rw [hf] at hfull; exact absurd hfull (by simp)
    | ok st =>
      rw [hf] at hfull
      simp only at hfull
      cases hfull
      constructor
      · intro hnone
        simp only [hnone]
      · intro v hv
        simp only [hv]

/-- C3 witness: instantiations of the amended claim at a one-country map
and at the example page (present country "Netherlands", absent country
"France"). -/
theorem claim_C3_witness :
    get_mirrors_from_json (some (some [("USA", [])])) (some "USA") =
      .ok [("USA", [])] ∧
    get_mirrors_from_json (some (some [("USA", [])])) (some "France") =
      .error .keyError ∧
    get_mirrors_from_web exampleDoc (some "Netherlands") =
      .ok [("Netherlands", [("LeaseWeb (http)", "http://mirror.leaseweb.com/gentoo/")])] :=
  ⟨((claim_C3_amended "USA").1 [("USA", [])]).2 [] (by decide),
   ((claim_C3_amended "France").1 [("USA", [])]).1 (by decide),
   ((claim_C3_amended "Netherlands").2 exampleDoc
      [("Netherlands", [("LeaseWeb (http)", "http://mirror.leaseweb.com/gentoo/")])]
      (by decide)).2
      [("LeaseWeb (http)", "http://mirror.leaseweb.com/gentoo/")] (by decide)⟩

/-! ## GeoResolver and Downloader (utils.py) -/

/-- A parsed JSON value as `json.loads` returns it. -/
inductive Json where
  | jstr (s : String)
  | jnum (n : Int)
  | jobj (fields : List (String × Json))
  | jarr (xs : List Json)
  | jbool (b : Bool)
  | jnull

/-- `read_webpage(url)` from utils.py over the fetch outcome: a urlopen
failure (URLError) is re-raised as RuntimeError, success returns the
body. -/
def read_webpage (resp : Option String) : Except PyErr String :=
  match resp with
  | none => .error .runtimeError
  | some body => .ok body

/-- Python subscripting `j['ip']` on a parsed JSON value: KeyError on an
object without the key, TypeError on any non-object value. -/
def jsonSubscript (j : Json) (k : String) : Except PyErr Json :=
  match j with
  | .jobj fields =>
    match dictGet fields k with
    | some v => .ok v
    | none => .error .keyError
  | _ => .error .typeError

/--
`get_public_ip()` from utils.py, over the fetch outcome `resp` and the
`json.loads` behaviour `loads` (None = ValueError for an unparsable
body):

    try:
        public_ip = json.loads(read_webpage(PUBLIC_IP_API))['ip']
    except (RuntimeError, ValueError, KeyError):
        public_ip = None
    return public_ip

Only those three exception kinds are caught; any other (notably the
TypeError from subscripting a non-object JSON value) propagates.
-/
def get_public_ip (resp : Option String) (loads : String → Option Json) :
    Except PyErr (Option Json) :=
  match
    ((match read_webpage resp with
      | .error e => Except.error e
      | .ok body =>
        match loads body with
        | none => Except.error PyErr.valueError
        | some j => jsonSubscript j "ip") : Except PyErr Json)
  with
  | .ok v => .ok (some v)
  | .error .runtimeError => .ok none
  | .error .valueError => .ok none
  | .error .keyError => .ok none
  | .error e => .error e

/--
`get_country_code_by_ip(ip)` from utils.py, over the behaviour `lookup`
of `pygeoip.GeoIP(GEOIP_FILE).country_code_by_addr`:

    try:
        code = pygeoip.GeoIP(GEOIP_FILE).country_code_by_addr(ip)
    except Exception:
        code = None
    return code

The catch-all `except Exception` swallows every lookup failure.
-/
def get_country_code_by_ip (lookup : String → Except PyErr String) (ip : String) :
    Except PyErr (Option String) :=
  match lookup ip with
  | .ok code => .ok (some code)
  | .error _ => .ok none

/--
`download_file(url, destination, hook)` from utils.py, over the outcome
`retrieve` of `urllib.urlretrieve` and the post-call existence
`existsAfter` of the destination path:

    try:
        urllib.urlretrieve(url, destination, hook)
    except IOError as error:
        return False, str(error)
    return os.path.exists(destination), None
-/
def download_file (retrieve : Except PyErr Unit) (existsAfter : Bool) :
    Except PyErr (Bool × Option String) :=
  match retrieve with
  | .error (.ioError msg) => .ok (false, some msg)
  | .error e => .error e
  | .ok _ => .ok (existsAfter, none)

/-- C8 counterexample: a fetch body that parses to a JSON array (valid
JSON with no "ip" key) makes `get_public_ip` raise TypeError (list
indices must be integers), which `except (RuntimeError, ValueError,
KeyError)` does not catch, instead of returning None. -/
theorem claim_C8_cex :
    get_public_ip (some "[]") (fun _ => some (Json.jarr [])) = .error .typeError ∧
    ¬ get_public_ip (some "[]") (fun _ => some (Json.jarr [])) = .ok none := by
  constructor
  · rfl
  · have h0 : get_public_ip (some "[]") (fun _ => some (Json.jarr [])) =
        .error .typeError := rfl
    rw [h0]
    simp

/-- C8 (amended): `get_public_ip` returns None when the fetch fails,
when the body is not valid JSON, or when the body is a JSON object
without the "ip" key, and returns the value at "ip" of an object body;
but a body parsing to a non-object JSON value raises TypeError.
`get_country_code_by_ip` never raises: it always produces a result,
None on any lookup failure. -/
theorem claim_C8_amended (resp : Option String) (loads : String → Option Json)
    (lookup : String → Except PyErr String) (ip : String) :
    (resp = none → get_public_ip resp loads = .ok none) ∧
    (∀ body, resp = some body → loads body = none →
      get_public_ip resp loads = .ok none) ∧
    (∀ body fields, resp = some body → loads body = some (Json.jobj fields) →
      dictGet fields "ip" = none → get_public_ip resp loads = .ok none) ∧
    (∀ body fields v, resp = some body → loads body = some (Json.jobj fields) →
      dictGet fields "ip" = some v → get_public_ip resp loads = .ok (some v)) ∧
    (∀ body j, resp = some body → loads body = some j →
      (∀ fields, j ≠ Json.jobj fields) →
      get_public_ip resp loads = .error .typeError) ∧
    (∃ r, get_country_code_by_ip lookup ip = .ok r) ∧
    (∀ e, lookup ip = .error e → get_country_code_by_ip lookup ip = .ok none) := by
  refine ⟨?_, ?_, ?_, ?_, ?_, ?_, ?_⟩
  · intro h
    subst h
    rfl
  · intro body h hl
    subst h
    simp only [get_public_ip, read_webpage, hl]
  · intro body fields h hl hip
    subst h
    simp only [get_public_ip, read_webpage, hl, jsonSubscript, hip]
  · intro body fields v h hl hip
    subst h
    simp only [get_public_ip, read_webpage, hl, jsonSubscript, hip]
  · intro body j h hl hno
    subst h
    simp only [get_public_ip, read_webpage, hl]
    cases j with
    | jobj fields => exact absurd rfl (hno fields)
    | jstr s => rfl
    | jnum n => rfl
    | jarr xs => rfl
    | jbool b => rfl
    | jnull => rfl
  · cases hl : lookup ip with
    | ok code => exact ⟨some code, by simp only [get_country_code_by_ip, hl]⟩
    | error e => exact ⟨none, by simp only [get_country_code_by_ip, hl]⟩
  · intro e hl
    simp only [get_country_code_by_ip, hl]

/-- C8 witness: instantiations of the amended claim for each outcome of
the fetch and for a failing geo-IP lookup on an invalid IP string. -/
theorem claim_C8_witness :
    get_public_ip none (fun _ => none) = .ok none ∧
    get_public_ip (some "I SHOULD BE JSON") (fun _ => none) = .ok none ∧
    get_public_ip (some "emptyobj") (fun _ => some (Json.jobj [])) = .ok none ∧
    get_public_ip (some "ipjsonbody")
      (fun _ => some (Json.jobj [("ip", Json.jstr "127.0.0.1")])) =
      .ok (some (Json.jstr "127.0.0.1")) ∧
    (∀ e, (fun _ : String => (Except.error e : Except PyErr String)) "I SHOULD BE AN IP" = .error e →
      get_country_code_by_ip (fun _ => .error e) "I SHOULD BE AN IP" = .ok none) :=
  ⟨(claim_C8_amended none (fun _ => none) (fun _ => .ok "US") "8.8.8.8").1 rfl,
   (claim_C8_amended (some "I SHOULD BE JSON") (fun _ => none)
      (fun _ => .ok "US") "8.8.8.8").2.1 "I SHOULD BE JSON" rfl rfl,
   (claim_C8_amended (some "emptyobj") (fun _ => some (Json.jobj []))
      (fun _ => .ok "US") "8.8.8.8").2.2.1 "emptyobj" [] rfl rfl rfl,
   (claim_C8_amended (some "ipjsonbody")
      (fun _ => some (Json.jobj [("ip", Json.jstr "127.0.0.1")]))
      (fun _ => .ok "US") "8.8.8.8").2.2.2.1 "ipjsonbody"
      [("ip", Json.jstr "127.0.0.1")] (Json.jstr "127.0.0.1") rfl rfl rfl,
   fun e _ =>
     (claim_C8_amended none (fun _ => none) (fun _ => .error e)
       "I SHOULD BE AN IP").2.2.2.2.2.2 e rfl⟩

/-- C9: download_file returns (False, error message) when the retrieval
primitive fails with an IOError, and when the retrieval call does not
raise it returns (E, None) where E is whether the destination exists
after the call — the post-hoc existence check is the success signal. -/
theorem claim_C9 (retrieve : Except PyErr Unit) (existsAfter : Bool) :
    (∀ msg, retrieve = .error (.ioError msg) →
      download_file retrieve existsAfter = .ok (false, some msg)) ∧
    (retrieve = .ok () →
      download_file retrieve existsAfter = .ok (existsAfter, none)) := by
  constructor
  · intro msg h
    subst h
    rfl
  · intro h
    subst h
    rfl

/-- C9 witness: instantiation at a forced IOError and at a successful
retrieval with the destination present. -/
theorem claim_C9_witness :
    download_file (.error (.ioError "Forced IOError")) false =
      .ok (false, some "Forced IOError") ∧
    download_file (.ok ()) true = .ok (true, none) :=
  ⟨(claim_C9 (.error (.ioError "Forced IOError")) false).1 "Forced IOError" rfl,
   (claim_C9 (.ok ()) true).2 rfl⟩
